import Mathlib

/-!
Shallow embedding of the `update_docstring` repository
(`polarion_pytest/svn_polarion.py`, `polarion_pytest/testinfo.py`,
`polarion_pytest/cli.py`) and proofs about its claims.

Conventions of the embedding:
* Python dictionaries are modelled as insertion-ordered association lists
  (`List (String × _)`); assignment updates an existing key in place and
  appends new keys at the end, matching insertion-ordered dict semantics
  (the spec's section 9 mandates this order-sensitive reading).
* Python values stored in work-item records are modelled by `PyVal`
  (`None`, `str`, `list`).
* Machine integers are `Nat` (all the numbers involved are non-negative
  work-item ids and string lengths); `/` on ints is integer division,
  matching the Python-2 semantics this code base runs under.
* Fallible code returns `Except PyExc _`; the exception constructors name
  the Python exception class that would be raised.
* Lines of a file are strings that contain no interior newline (the
  `readline` invariant); the regex helpers encode `$`-before-final-newline
  semantics by first discarding a single trailing newline.
-/

namespace UpdateDocstring

/-- Python exception classes that the modelled code can raise. -/
inductive PyExc where
  | keyError
  | indexError
  | attributeError
  | typeError
  | valueError
  deriving DecidableEq, Repr

/-- A Python value as stored in a work-item record: `None`, a string, or a
list of strings.  The only lists the program builds are lists of strings
(step texts, wrapped lines, linked work items); a `None` step text is
modelled as `""`, which is indistinguishable at every use site (both are
falsy and both render through `or None`). -/
inductive PyVal where
  | vNone
  | vStr (s : String)
  | vList (l : List String)
  deriving DecidableEq, Repr

namespace PyVal

/-- Python truthiness of a record value: `None`, `""` and `[]` are falsy. -/
def truthy : PyVal → Bool
  | vNone => false
  | vStr s => !(s == "")
  | vList l => !l.isEmpty

end PyVal

/-- A work-item record: a mapping from field name to value, modelled as an
insertion-ordered association list with distinct keys. -/
abbrev Record := List (String × PyVal)

/-- First-match association-list lookup (Python dict lookup). -/
def lookupVal (r : Record) (k : String) : Option PyVal :=
  match r with
  | [] => none
  | p :: rest => if p.1 == k then some p.2 else lookupVal rest k

/-- Python `d.get(k)`: absent keys give `None`. -/
def getVal (r : Record) (k : String) : PyVal :=
  (lookupVal r k).getD .vNone

/-- Python `d.get(k, default)`. -/
def getValD (r : Record) (k : String) (d : PyVal) : PyVal :=
  (lookupVal r k).getD d

/-- Python `k in d`. -/
def hasKey (r : Record) (k : String) : Bool :=
  (lookupVal r k).isSome

/-- Python `d[k] = v`: update an existing key in place, else append. -/
def setVal (r : Record) (k : String) (v : PyVal) : Record :=
  match r with
  | [] => [(k, v)]
  | p :: rest =>
    if p.1 == k then (p.1, v) :: rest else p :: setVal rest k v

/-- Python `del d[k]` (the key is present in every modelled call site). -/
def delVal (r : Record) (k : String) : Record :=
  match r with
  | [] => []
  | p :: rest =>
    if p.1 == k then rest else p :: delVal rest k

/-- Truthiness of an optional record (`None` and `{}` are falsy). -/
def truthyRec : Option Record → Bool
  | none => false
  | some r => !r.isEmpty

/-! ## Character and string helpers shared by the embeddings -/

/-- The characters Python's argument-less `str.strip` removes. -/
def isPyWs (c : Char) : Bool :=
  c == ' ' || c == '\t' || c == '\n' || c == '\r' ||
    c == Char.ofNat 11 || c == Char.ofNat 12

/-- Python `s.strip()` on the character list. -/
def pyStripL (l : List Char) : List Char :=
  ((l.dropWhile isPyWs).reverse.dropWhile isPyWs).reverse

/-- Python `s.strip()`. -/
def pyStrip (s : String) : String :=
  ⟨pyStripL s.data⟩

/-- Python `s.rstrip()` (trailing whitespace, including the newline). -/
def pyRstrip (s : String) : String :=
  ⟨(s.data.reverse.dropWhile isPyWs).reverse⟩

/-- Python `s.rstrip(chars)` for a single-character set. -/
def pyRstripChar (s : String) (c : Char) : String :=
  ⟨(s.data.reverse.dropWhile (· == c)).reverse⟩

/-- Python `s.lstrip(' ')` (used for indent computations: spaces only). -/
def lstripSpaces (l : List Char) : List Char :=
  l.dropWhile (· == ' ')

/-- `len(line) - len(line.lstrip(' '))`: the leading-space count. -/
def indentOf (s : String) : Nat :=
  (s.data.takeWhile (· == ' ')).length

/-- Drop one trailing `'\n'` if present: Python's `$` matches just before a
single final newline, so the anchored-regex helpers first discard it. -/
def dropFinalNl (l : List Char) : List Char :=
  match l.reverse with
  | '\n' :: rest => rest.reverse
  | _ => l

/-- Spaces-only right strip on a character list. -/
def rstripSp (l : List Char) : List Char :=
  (l.reverse.dropWhile (· == ' ')).reverse

/-- Spaces-only left strip on a character list. -/
def lstripSp (l : List Char) : List Char :=
  l.dropWhile (· == ' ')

/-- Substring containment on character lists. -/
def infixOf (needle : List Char) : List Char → Bool
  | [] => needle.isEmpty
  | c :: rest => needle.isPrefixOf (c :: rest) || infixOf needle rest

/-- Substring containment (`needle in haystack` for Python strings). -/
def containsSub (haystack needle : String) : Bool :=
  infixOf needle.data haystack.data

/-- `n * ' '` -/
def spaces (n : Nat) : String :=
  ⟨List.replicate n ' '⟩

/-! ## `svn_polarion.WorkItemCache.get_path` -/

/-- `len(str(num))`: the number of decimal digits of `num` (1 for 0). -/
def digLen (n : Nat) : Nat :=
  (toString n).length

/-- `WorkItemCache.get_path`: builds the range-sharded directory path of a
work-item number.  `range(dig_len - 2)` levels; at level `i` the divisor is
`10 ** (dig_len - i - 1)` and the component is
`(num / divisor) * divisor` `-` `((num / divisor) + 1) * divisor - 1`
(`/` is Python-2 integer division). -/
def get_path (num : Nat) : String :=
  let digs := digLen num
  let paths := (List.range (digs - 2)).map (fun i =>
    let divisor := 10 ^ (digs - i - 1)
    toString (num / divisor * divisor) ++ "-" ++
      toString ((num / divisor + 1) * divisor - 1))
  String.intercalate "/" paths

/-! ## `svn_polarion.PolarionTestcases.strip_parameters` -/

/-- Index of the last `']'` occurring before the first `'\n'` of the list.
This is where the greedy `.*` of the pattern `\[.*\]` stops when the match
attempt starts just before `l`. -/
def lastIdxOfR : List Char → Option Nat
  | [] => none
  | c :: rest =>
    if c == '\n' then none
    else
      match lastIdxOfR rest with
      | some k => some (k + 1)
      | none => if c == ']' then some 0 else none

/-- Worker for `subParam`: `skip` counts characters still being deleted as
part of a match found earlier (structural recursion so that the kernel can
evaluate it). -/
def subParamAux : List Char → Nat → List Char
  | [], _ => []
  | _ :: rest, skip + 1 => subParamAux rest skip
  | c :: rest, 0 =>
    if c == '[' then
      match lastIdxOfR rest with
      | some k => subParamAux rest (k + 1)
      | none => c :: subParamAux rest 0
    else c :: subParamAux rest 0

/-- `re.sub(r'\[.*\]', '', ·)` on a character list: at each `'['` that has a
`']'` later in the same newline-free stretch, delete through the last such
`']'` and continue after it; otherwise keep scanning. -/
def subParam (l : List Char) : List Char :=
  subParamAux l 0

/-- `PolarionTestcases.TEST_PARAM.sub('', title)`. -/
def stripParams (s : String) : String :=
  ⟨subParam s.data⟩

/-- `true` when no `'['` of the list has a `']'` later in the same
newline-free stretch, i.e. the pattern `\[.*\]` has no match. -/
def noParamMatch : List Char → Bool
  | [] => true
  | c :: rest =>
    (if c == '[' then (lastIdxOfR rest).isNone else true) && noParamMatch rest

/-- The testcase index: ordered mapping title → list of work-item ids. -/
abbrev Index := List (String × List String)

/-- Lookup in the index. -/
def lookupIds (m : Index) (k : String) : Option (List String) :=
  match m with
  | [] => none
  | p :: rest => if p.1 == k then some p.2 else lookupIds rest k

/-- One step of `strip_parameters`'s loop body:
`filtered[key].extend(ids)` when the key exists, else `filtered[key] = ids`. -/
def insertExtend (m : Index) (k : String) (ids : List String) : Index :=
  match m with
  | [] => [(k, ids)]
  | p :: rest =>
    if p.1 == k then (p.1, p.2 ++ ids) :: rest
    else p :: insertExtend rest k ids

/-- `PolarionTestcases.strip_parameters`: rebuilds the index with
parameter-stripped titles, extending the id list when two titles collapse. -/
def strip_parameters (m : Index) : Index :=
  m.foldl (fun acc p => insertExtend acc (stripParams p.1) p.2) []

/-! ## `svn_polarion.PolarionTestcases.get_by_name` -/

/-- `PolarionTestcases._check_automation`: compares the record's
`caseautomation` field (absent → `None`) with `"automated"`. -/
def check_automation (case : Record) (should_be_automated : Bool) : Bool :=
  let caseautomation := getVal case "caseautomation"
  if should_be_automated then caseautomation == .vStr "automated"
  else !(caseautomation == .vStr "automated")

/-- The scan loop of `get_by_name` for `automated ≠ None`: walks the id
list in order; `case.get` on an invalid (`None`) cache result raises
`AttributeError`. -/
def get_by_name_scan (cache : String → Option Record) (automated : Bool) :
    List String → Except PyExc (Option Record)
  | [] => .ok none
  | id :: rest =>
    match cache id with
    | none => .error .attributeError
    | some case =>
      if check_automation case automated then .ok (some case)
      else get_by_name_scan cache automated rest

/-- `PolarionTestcases.get_by_name`.  The work-item cache is abstracted as
a pure lookup `cache : String → Option Record` (its stateful loading
behaviour is modelled separately by `getItem`); `none` stands for a lookup
that yields Python `None`.  A `testcase_name` of `None` (the scanner saw no
test yet) is never a key of the index, so it raises `KeyError` like any
absent title. -/
def get_by_name (avail : Index) (cache : String → Option Record)
    (testcase_name : Option String) (automated : Option Bool) :
    Except PyExc (Option Record) :=
  match testcase_name with
  | none => .error .keyError
  | some name =>
    match lookupIds avail name with
    | none => .error .keyError
    | some ids =>
      match automated with
      | none =>
        match ids with
        | [] => .error .indexError
        | id :: _ => .ok (cache id)
      | some b => get_by_name_scan cache b ids

/-! ## `svn_polarion.WorkItemCache.__getitem__` -/

/-- One field of a parsed work-item tree, at the interface boundary the
spec draws around record-file parsing: a scalar field carries `item.text`
(possibly `None`); the `steps` variant carries the texts of the text-typed
sub-items that `_get_steps` extracts (a `None` text is modelled `""`,
indistinguishable downstream). -/
inductive XField where
  | scalar (text : Option String)
  | steps (items : List String)
  deriving DecidableEq, Repr

/-- A parsed `workitem.xml` tree, reduced to its `/work-item/field`
elements in document order. -/
abbrev Tree := List (String × XField)

/-- `_get_steps`: splits the sub-item texts alternately into steps
(even positions) and expected results (odd positions). -/
def altSplit : List String → List String × List String
  | [] => ([], [])
  | x :: rest =>
    let p := altSplit rest
    (x :: p.2, p.1)

/-- A cache slot: either the `InvalidObject` sentinel or a plain dict. -/
inductive CacheEntry where
  | invalid
  | record (r : Record)
  deriving DecidableEq, Repr

/-- The `_cache` defaultdict. -/
abbrev WICache := List (String × CacheEntry)

/-- Lookup in the cache. -/
def lookupEntry (c : WICache) (k : String) : Option CacheEntry :=
  match c with
  | [] => none
  | p :: rest => if p.1 == k then some p.2 else lookupEntry rest k

/-- Assignment into the cache. -/
def setEntry (c : WICache) (k : String) (v : CacheEntry) : WICache :=
  match c with
  | [] => [(k, v)]
  | p :: rest =>
    if p.1 == k then (p.1, v) :: rest else p :: setEntry rest k v

/-- What `WorkItemCache.__getitem__` can return: `None`, the cached
`InvalidObject` sentinel (a truthy object), or a record dict. -/
inductive GetItemRet where
  | pyNone
  | invalidObj
  | record (r : Record)
  deriving DecidableEq, Repr

/-- Field post-processing of `__getitem__`: writes each
`/work-item/field` into the cached dict; `testSteps` is split into the
`testSteps`/`expectedResults` lists, every other field stores `item.text`. -/
def buildRecord (tree : Tree) : Record :=
  tree.foldl (fun acc p =>
    if p.1 == "testSteps" then
      match p.2 with
      | .steps items =>
        let sp := altSplit items
        setVal (setVal acc "testSteps" (.vList sp.1)) "expectedResults" (.vList sp.2)
      | .scalar _ =>
        setVal (setVal acc "testSteps" (.vList [])) "expectedResults" (.vList [])
    else
      setVal acc p.1 (match p.2 with
        | .scalar t => t.elim .vNone .vStr
        | .steps _ => .vNone)) []

/-- Python `s.split(sep)` for a single-character separator (worker). -/
def splitOnCharAux (sep : Char) : List Char → List Char → List String
  | [], cur => [⟨cur.reverse⟩]
  | c :: rest, cur =>
    if c == sep then String.mk cur.reverse :: splitOnCharAux sep rest []
    else splitOnCharAux sep rest (c :: cur)

/-- Python `s.split(sep)` for a single-character separator
(`"".split('-') == ['']`). -/
def splitOnChar (sep : Char) (s : String) : List String :=
  splitOnCharAux sep s.data []

/-- `WorkItemCache.__getitem__`, with `get_tree` inlined.  `repo` is the
external record-file parser (spec section 6): `none` is a load failure.
Control flow notes, traced from the source:
* `if work_item_id in self._cache` returns the stored object itself, so a
  cached `InvalidObject` is returned as the (truthy) sentinel, not `None`;
* otherwise the `elif isinstance(self._cache[work_item_id], InvalidObject)`
  test evaluates `self._cache[work_item_id]` on a defaultdict, inserting a
  fresh empty dict for the key; the fresh dict is no `InvalidObject`, so
  that branch never fires;
* a malformed id (unpacking `split('-')` to two names fails) or a failed
  parse stores `InvalidObject` and returns `None`;
* `int(tcid)` in `get_path` sits outside `get_tree`'s `try`, so a
  non-numeric id suffix raises `ValueError` out of the call;
* a record without a `type` field raises `KeyError`;
* a record with `type != "testcase"` stores `InvalidObject`, returns `None`;
* otherwise a missing `assignee` defaults to `""` and the dict is returned. -/
def getItem (repo : String → Option Tree) (cache : WICache) (id : String) :
    Except PyExc (GetItemRet × WICache) :=
  match lookupEntry cache id with
  | some e =>
    .ok (match e with
      | .invalid => .invalidObj
      | .record r => .record r, cache)
  | none =>
    let cache := cache ++ [(id, .record [])]
    match splitOnChar '-' id with
    | [_, tcid] =>
      if tcid == "" || !tcid.data.all Char.isDigit then .error .valueError
      else
        match repo id with
        | none => .ok (.pyNone, setEntry cache id .invalid)
        | some tree =>
          let r := buildRecord tree
          let cache := setEntry cache id (.record r)
          match lookupVal r "type" with
          | none => .error .keyError
          | some t =>
            if !(t == .vStr "testcase") then
              .ok (.pyNone, setEntry cache id .invalid)
            else
              let r := if hasKey r "assignee" then r
                       else setVal r "assignee" (.vStr "")
              .ok (.record r, setEntry cache id (.record r))
    | _ => .ok (.pyNone, setEntry cache id .invalid)

/-! ## `testinfo.CurrentTier` -/

/-- State of the tier tracker (`CurrentTier.__init__`).  The tier strings
are regex captures `[1-3]`, never empty, so the truthiness tests
`if self._tier_pending:` etc. coincide with `isSome`. -/
structure TierState where
  tier_missing : Bool := false
  _module : Option String := none
  _class : Option String := none
  _method : Option String := none
  _method_indent : Nat := 0
  _tier_pending : Option String := none
  deriving DecidableEq, Repr

/-- Match `pytest.mark.tier\(([1-3])\)` at the head of the list.  The
unescaped dots of the source pattern match any character except a newline;
the capture is the digit. -/
def matchTierAt : List Char → Option Char
  | 'p' :: 'y' :: 't' :: 'e' :: 's' :: 't' :: a :: 'm' :: 'a' :: 'r' :: 'k' ::
      b :: 't' :: 'i' :: 'e' :: 'r' :: '(' :: d :: ')' :: _ =>
    if a != '\n' && b != '\n' && (d == '1' || d == '2' || d == '3') then some d
    else none
  | _ => none

/-- `CurrentTier.TIER_MOD.search`: leftmost match of the module-level
pattern. -/
def searchTierMod : List Char → Option Char
  | [] => none
  | c :: rest =>
    match matchTierAt (c :: rest) with
    | some d => some d
    | none => searchTierMod rest

/-- Match the decorator pattern `@pytest.mark.tier\(([1-3])\)` at the head. -/
def matchTierDecAt : List Char → Option Char
  | '@' :: rest => matchTierAt rest
  | _ => none

/-- `CurrentTier.TIER_DEC.search`: leftmost match of the decorator
pattern. -/
def searchTierDec : List Char → Option Char
  | [] => none
  | c :: rest =>
    match matchTierDecAt (c :: rest) with
    | some d => some d
    | none => searchTierDec rest

/-- `CurrentTier.process_line`. -/
def tierProcessLine (s : TierState) (line : String) : TierState × String :=
  let s := { s with tier_missing := false }
  match searchTierDec line.data with
  | some d => ({ s with _tier_pending := some (String.singleton d) }, line)
  | none =>
    match searchTierMod line.data with
    | some d => ({ s with _module := some (String.singleton d) }, line)
    | none =>
      if containsSub line "class Test" then
        let s := { s with _class := none }
        let s :=
          if s._tier_pending.isSome then
            { s with _class := s._tier_pending, _tier_pending := none }
          else s
        (s, line)
      else if containsSub line "def test_" then
        let s := { s with _method := none }
        let s :=
          if s._tier_pending.isSome then
            { s with _method := s._tier_pending, _tier_pending := none }
          else s
        let s := { s with _method_indent := indentOf line }
        let s := if s._method_indent == 0 then { s with _class := none } else s
        let s :=
          if !(s._method.isSome || s._class.isSome || s._module.isSome) then
            { s with tier_missing := true }
          else s
        (s, line)
      else (s, line)

/-! ## `testinfo.CurrentTest` -/

/-- State of the docstring scanner (`CurrentTest.__init__`). -/
structure TestState where
  test_class : Option String := none
  test_name : Option String := none
  docstring_data : List String := []
  docstring_begin : Bool := false
  docstring_end : Bool := false
  line_is_in_docstring : Bool := false
  _test_def_now : Bool := false
  _docstring_next : Bool := false
  _docstring_now : Bool := false
  deriving DecidableEq, Repr

/-- `CurrentTest.CLASS_NAME.match`: `' *class (Test[^(:]*)[(:]'` — leading
spaces, `class `, a group starting `Test` running to the first `(` or `:`,
which must exist. -/
def classNameMatch (l : List Char) : Option String :=
  match l.dropWhile (· == ' ') with
  | 'c' :: 'l' :: 'a' :: 's' :: 's' :: ' ' :: 'T' :: 'e' :: 's' :: 't' :: rest =>
    let cap := rest.takeWhile (fun c => !(c == '(' || c == ':'))
    match rest.dropWhile (fun c => !(c == '(' || c == ':')) with
    | _ :: _ => some ⟨'T' :: 'e' :: 's' :: 't' :: cap⟩
    | [] => none
  | _ => none

/-- `CurrentTest.TEST_NAME.match`: `' *def (test_[^(]*)\('` — leading
spaces, `def `, a group starting `test_` running to the first `(`, which
must exist. -/
def testNameMatch (l : List Char) : Option String :=
  match l.dropWhile (· == ' ') with
  | 'd' :: 'e' :: 'f' :: ' ' :: 't' :: 'e' :: 's' :: 't' :: '_' :: rest =>
    let cap := rest.takeWhile (fun c => !(c == '('))
    match rest.dropWhile (fun c => !(c == '(')) with
    | _ :: _ => some ⟨'t' :: 'e' :: 's' :: 't' :: '_' :: cap⟩
    | [] => none
  | _ => none

/-- `CurrentTest.TEST_DEF_END.match`: `.*\): *$` — after discarding the
final newline and trailing spaces the line ends in `):`. -/
def testDefEnd (l : List Char) : Bool :=
  match (rstripSp (dropFinalNl l)).reverse with
  | ':' :: ')' :: _ => true
  | _ => false

/-- `CurrentTest.DOCSTRING_START.match`: `' *"""'`. -/
def docstringStart (l : List Char) : Bool :=
  match l.dropWhile (· == ' ') with
  | '"' :: '"' :: '"' :: _ => true
  | _ => false

/-- `CurrentTest.DOCSTRING_SAME_END.match`: `' *[^ ].+""" *$'` — after
discarding the final newline and trailing spaces the line ends in `"""`,
and its space-stripped content is at least 5 characters long (one non-space
head, a non-empty `.+`, and the closing quotes). -/
def docstringSameEnd (l : List Char) : Bool :=
  let t := rstripSp (dropFinalNl l)
  (decide ((lstripSp t).length ≥ 5)) &&
    (match t.reverse with
     | '"' :: '"' :: '"' :: _ => true
     | _ => false)

/-- `CurrentTest.DOCSTRING_END.match`: `' *""" *$'`. -/
def docstringEnd (l : List Char) : Bool :=
  lstripSp (rstripSp (dropFinalNl l)) == ['"', '"', '"']

/-- Python `'{}'.format(x)` on an optional string (`None` renders `None`),
used for the qualified `{class}.{method}` name. -/
def optStr : Option String → String
  | none => "None"
  | some s => s

/-- `CurrentTest._handle_same_line_end`. -/
def handleSameLineEnd (s : TestState) (line : String) : TestState :=
  let l1 := pyRstrip line
  let l2 := pyRstripChar l1 '"'
  let l3 := pyRstrip l2
  { s with
    docstring_data := s.docstring_data ++ [l3 ++ "\n"]
    docstring_end := true
    line_is_in_docstring := true
    _docstring_now := false }

/-- `CurrentTest._handle_class`. -/
def handleClass (s : TestState) (line : String) : TestState :=
  match classNameMatch line.data with
  | none => s
  | some name => { s with test_class := some name }

/-- `CurrentTest._handle_test`. -/
def handleTest (s : TestState) (line : String) : TestState :=
  match testNameMatch line.data with
  | none => s
  | some name =>
    let s := { s with test_name := some name }
    let s :=
      if indentOf line > 0 then
        { s with test_name := some (optStr s.test_class ++ "." ++ name) }
      else { s with test_class := none }
    let s := { s with _test_def_now := true, docstring_data := [] }
    if testDefEnd line.data then
      { s with _test_def_now := false, _docstring_next := true }
    else s

/-- `CurrentTest.process_line`. -/
def testProcessLine (s : TestState) (line : String) : TestState × String :=
  let s :=
    { s with
      docstring_begin := false
      docstring_end := false
      line_is_in_docstring := false }
  if containsSub line "class Test" then (handleClass s line, line)
  else if containsSub line "def test_" then (handleTest s line, line)
  else if s._test_def_now && testDefEnd line.data then
    ({ s with _docstring_next := true, _test_def_now := false }, line)
  else if s._docstring_next then
    if pyStrip line == "" then (s, line)
    else
      let s := { s with _docstring_next := false }
      if !docstringStart line.data then
        ({ s with docstring_end := true }, line)
      else
        let s := { s with docstring_data := [] }
        if docstringSameEnd line.data then (handleSameLineEnd s line, line)
        else
          ({ s with
              docstring_begin := true
              line_is_in_docstring := true
              _docstring_now := true
              docstring_data := [line] }, line)
  else if s._docstring_now && docstringSameEnd line.data then
    (handleSameLineEnd s line, line)
  else if s._docstring_now && docstringEnd line.data then
    ({ s with
        _docstring_now := false
        line_is_in_docstring := true
        docstring_end := true }, line)
  else if s._docstring_now then
    ({ s with
        line_is_in_docstring := true
        docstring_data := s.docstring_data ++ [line] }, line)
  else (s, line)

/-! ## `cli.py`: externally supplied field tables

The `polarion_docstrings.polarion_fields` module is an external dependency
(not part of this repository), so its tables are modelled from what the
spec says about them. -/

/-- Modelled from the spec: `polarion_fields.REQUIRED_FIELDS`, the fields
that are rendered even when null ("required-but-present-as-default-null");
the spec does not enumerate the set, it singles out `assignee` (defaulting
to the empty string), which is taken as representative. -/
def REQUIRED_FIELDS : List String := ["assignee"]

/-- Modelled from the spec: `polarion_fields.POLARION_FIELDS`, the mapping
field → documented default value (spec section 3 field list; `caselevel`
defaults to `"component"`, `caseautomation` to `"automated"`, `assignee`
to `""`). -/
def POLARION_FIELDS : List (String × PyVal) :=
  [("assignee", .vStr ""),
   ("caseautomation", .vStr "automated"),
   ("casecomponent", .vNone),
   ("caselevel", .vStr "component"),
   ("description", .vNone),
   ("expectedResults", .vNone),
   ("linkedWorkItems", .vNone),
   ("setup", .vNone),
   ("teardown", .vNone),
   ("testSteps", .vNone),
   ("title", .vNone)]

/-- Modelled from the spec: `polarion_fields.CASELEVELS`, the mapping from
case level to numeric tier (`"integration"` maps to tier 2 per spec
section 8). -/
def CASELEVELS : List (String × Nat) :=
  [("component", 1), ("integration", 2), ("system", 3)]

/-- Modelled from the spec: `polarion_fields.CASECOMPONENT_MAP`, the fixed
controlled-vocabulary translation table for `casecomponent`. -/
def CASECOMPONENT_MAP : List (String × String) := [("WebUI", "web_ui")]

/-- Modelled from the spec: `polarion_fields.VALID_VALUES`, the
controlled-vocabulary fields whose values skip markup sanitizing. -/
def VALID_VALUES : List String :=
  ["caseautomation", "caselevel", "caseimportance", "caseposneg"]

/-- Modelled from the spec: `polarion_fields.MANUAL_ONLY_FIELDS`, the
fields only rendered for manual testcases. -/
def MANUAL_ONLY_FIELDS : List String :=
  ["setup", "teardown", "testSteps", "expectedResults"]

/-- `TestsTransform.DEFAULT_DATA = {key: None for key in REQUIRED_FIELDS}`. -/
def DEFAULT_DATA : Record := REQUIRED_FIELDS.map (fun k => (k, PyVal.vNone))

/-- Generic string-keyed association lookup. -/
def lookupStr {α : Type} (m : List (String × α)) (k : String) : Option α :=
  match m with
  | [] => none
  | p :: rest => if p.1 == k then some p.2 else lookupStr rest k

/-! ## `cli.py`: text helpers (`_sanitize_string`, `_sanitize_paragraph`,
`textwrap.wrap`) -/

/-- Last index where `pat` occurs as a prefix of `l.drop i` (for the greedy
backtracking of `.+` before a closing literal). -/
def lastOccAt (pat : List Char) : List Char → Option Nat
  | [] => none
  | c :: rest =>
    match lastOccAt pat rest with
    | some k => some (k + 1)
    | none => if pat.isPrefixOf (c :: rest) then some 0 else none

/-- Try to match `<!\[CDATA\[(.+)\]\]>` at the head of the list; `.` does
not cross a newline, `.+` is greedy, so the group runs to the last `]]>`
in the same newline-free stretch and must be non-empty. -/
def matchCdataAt : List Char → Option (List Char)
  | '<' :: '!' :: '[' :: 'C' :: 'D' :: 'A' :: 'T' :: 'A' :: '[' :: rest =>
    let seg := rest.takeWhile (fun c => !(c == '\n'))
    match lastOccAt [']', ']', '>'] seg with
    | some q => if q ≥ 1 then some (seg.take q) else none
    | none => none
  | _ => none

/-- `re.search(r'<!\[CDATA\[(.+)\]\]>', ·)`: group 1 of the leftmost
match. -/
def cdataGroup : List Char → Option (List Char)
  | [] => none
  | c :: rest =>
    match matchCdataAt (c :: rest) with
    | some g => some g
    | none => cdataGroup rest

/-- `re.sub('<br ?/?>', '\n', ·)`: the four literal variants. -/
def subBr : List Char → List Char
  | [] => []
  | '<' :: 'b' :: 'r' :: '>' :: rest => '\n' :: subBr rest
  | '<' :: 'b' :: 'r' :: ' ' :: '>' :: rest => '\n' :: subBr rest
  | '<' :: 'b' :: 'r' :: '/' :: '>' :: rest => '\n' :: subBr rest
  | '<' :: 'b' :: 'r' :: ' ' :: '/' :: '>' :: rest => '\n' :: subBr rest
  | c :: rest => c :: subBr rest

/-- `re.sub('<[^>]+>', '', ·)` worker; `skip` counts characters of a match
still being deleted. -/
def removeTagsAux : List Char → Nat → List Char
  | [], _ => []
  | _ :: rest, skip + 1 => removeTagsAux rest skip
  | c :: rest, 0 =>
    if c == '<' then
      match rest.findIdx? (· == '>') with
      | some 0 => c :: removeTagsAux rest 0
      | some (k + 1) => removeTagsAux rest (k + 2)
      | none => c :: removeTagsAux rest 0
    else c :: removeTagsAux rest 0

/-- `re.sub('<[^>]+>', '', ·)`. -/
def removeTags (l : List Char) : List Char :=
  removeTagsAux l 0

/-- Length of the space run at the head iff it is followed by `'\n'`. -/
def spacesThenNl : List Char → Option Nat
  | ' ' :: rest => (spacesThenNl rest).map (· + 1)
  | '\n' :: _ => some 0
  | _ => none

/-- `re.sub(' *\n', '\n', ·)` worker. -/
def subSpNlAux : List Char → Nat → List Char
  | [], _ => []
  | _ :: rest, skip + 1 => subSpNlAux rest skip
  | c :: rest, 0 =>
    if c == ' ' then
      match spacesThenNl (c :: rest) with
      | some n => subSpNlAux rest (n - 1)
      | none => c :: subSpNlAux rest 0
    else c :: subSpNlAux rest 0

/-- `re.sub(' *\n', '\n', ·)`: spaces before a newline are deleted. -/
def subSpNl (l : List Char) : List Char :=
  subSpNlAux l 0

/-- `str.replace(pat, rep)` worker (non-overlapping, left to right);
`pat` is non-empty at every call site. -/
def replaceAllAux (pat rep : List Char) : List Char → Nat → List Char
  | [], _ => []
  | _ :: rest, skip + 1 => replaceAllAux pat rep rest skip
  | c :: rest, 0 =>
    if pat.isPrefixOf (c :: rest) then
      rep ++ replaceAllAux pat rep rest (pat.length - 1)
    else c :: replaceAllAux pat rep rest 0

/-- `str.replace(pat, rep)`. -/
def replaceAll (l pat rep : List Char) : List Char :=
  replaceAllAux pat rep l 0

/-- Collapse runs of the character `t` to a single occurrence
(`re.sub('X+', 'X', ·)`); the Boolean tracks whether the previous character
belonged to a run. -/
def collapseRunsAux (t : Char) : List Char → Bool → List Char
  | [], _ => []
  | c :: rest, prev =>
    if c == t then
      if prev then collapseRunsAux t rest true
      else c :: collapseRunsAux t rest true
    else c :: collapseRunsAux t rest false

/-- `re.sub('X+', 'X', ·)` for a single character `X`. -/
def collapseRuns (t : Char) (l : List Char) : List Char :=
  collapseRunsAux t l false

/-- `cli._sanitize_string`: CDATA extraction, `<br>` to newline, tag
removal, space-before-newline removal, the entity replacements (in source
order), and newline-run collapsing. -/
def sanitize_string (s : String) : String :=
  let l := s.data
  let l := match cdataGroup l with
    | some g => g
    | none => l
  let l := subBr l
  let l := removeTags l
  let l := subSpNl l
  let l := replaceAll l "&npsp;".data " ".data
  let l := replaceAll l "&gt;".data ">".data
  let l := replaceAll l "&lt;".data "<".data
  let l := replaceAll l "&quot;".data "\"".data
  let l := replaceAll l "&amp;".data "&".data
  let l := replaceAll l "&#39;".data "\"".data
  let l := replaceAll l "&#10;".data "\n".data
  let l := replaceAll l [Char.ofNat 160] " ".data
  let l := collapseRuns '\n' l
  ⟨l⟩

/-- Modelled from the spec: the Python standard library's `textwrap.wrap`
(an external collaborator, "word-wrapped at a narrower width"): split into
whitespace-separated words, chunk words longer than the width, and fill
lines greedily.  (The stdlib's hyphen handling and whitespace fixing are
not reproduced; no claim evaluates this function on inputs where they
differ.) -/
def splitWsAux : List Char → List Char → List (List Char)
  | [], cur => if cur.isEmpty then [] else [cur.reverse]
  | c :: rest, cur =>
    if isPyWs c then
      if cur.isEmpty then splitWsAux rest []
      else cur.reverse :: splitWsAux rest []
    else splitWsAux rest (c :: cur)

/-- Whitespace-separated words of a character list. -/
def splitWs (l : List Char) : List (List Char) :=
  splitWsAux l []

/-- Chunk a word into pieces of at most `width` characters (`fuel`-driven
structural recursion; `fuel` starts at the word length). -/
def chunkWordAux (width : Nat) : Nat → List Char → List (List Char)
  | _, [] => []
  | 0, w => [w]
  | fuel + 1, w =>
    if w.length ≤ width then [w]
    else w.take width :: chunkWordAux width fuel (w.drop width)

/-- Greedy line filling at `width`. -/
def fillWords (width : Nat) : List (List Char) → List Char → List String
  | [], cur => if cur.isEmpty then [] else [⟨cur⟩]
  | w :: rest, cur =>
    if cur.isEmpty then fillWords width rest w
    else if cur.length + 1 + w.length ≤ width then
      fillWords width rest (cur ++ ' ' :: w)
    else ⟨cur⟩ :: fillWords width rest w

/-- Modelled from the spec: `textwrap.wrap(s, width)`. -/
def textwrapWrap (s : String) (width : Nat) : List String :=
  let ws := (splitWs s.data).flatMap
    (fun w => chunkWordAux (max width 1) w.length w)
  fillWords width ws []

/-- `cli._sanitize_paragraph`: sanitize, split on newlines, strip and wrap
each line at the default width 70; `None` when nothing remains. -/
def sanitize_paragraph (p : String) : PyVal :=
  if p == "" then .vNone
  else
    let np := sanitize_string p
    if np == "" then .vNone
    else
      .vList ((np.splitOn "\n").flatMap (fun ln => textwrapWrap (pyStrip ln) 70))

/-! ## `cli.TestsTransform`: tier computation and field filtering -/

/-- `TestsTransform.get_tier`: the default case level yields no tier; an
unknown level raises `KeyError` from `pf.CASELEVELS[caselevel]` (`None` is
a missing key, a list an unhashable one). -/
def get_tier (polarion_data : Record) : Except PyExc (Option Nat) :=
  let caselevel := getValD polarion_data "caselevel" (.vStr "component")
  if polarion_data.isEmpty then .ok none
  else if getVal POLARION_FIELDS "caselevel" == caselevel then .ok none
  else
    match caselevel with
    | .vStr s =>
      match lookupStr CASELEVELS s with
      | some n => .ok (some n)
      | none => .error .keyError
    | .vNone => .error .keyError
    | .vList _ => .error .typeError

/-- `TestsTransform.get_tier_annotation` (`if not tier` also drops a
tier of 0). -/
def get_tier_annot (polarion_data : Record) : Except PyExc (Option String) := do
  match (← get_tier polarion_data) with
  | none => pure none
  | some n =>
    if n == 0 then pure none
    else pure (some ("@pytest.mark.tier(" ++ toString n ++ ")"))

/-- `TestsTransform.append_tier`: prefixes the annotation line at the
line's own indentation (`len(None)` would raise `TypeError`). -/
def append_tier (polarion_data : Record) (line : Option String) :
    Except PyExc (Option String) := do
  match (← get_tier_annot polarion_data) with
  | none => pure line
  | some ann =>
    match line with
    | none => .error .typeError
    | some l => pure (some (spaces (indentOf l) ++ ann ++ "\n" ++ l))

/-- `TestsTransform.get_testcase_data`: `get_by_name(..., automated=True)`
with `KeyError` caught to `None`. -/
def get_testcase_data (testcase_name : Option String) (avail : Index)
    (cache : String → Option Record) : Except PyExc (Option Record) :=
  match get_by_name avail cache testcase_name (some true) with
  | .error .keyError => .ok none
  | .error e => .error e
  | .ok r => .ok r

/-- `TestsTransform.filter_testcase_fields`: keeps the fields that differ
from their documented default; a required field with a falsy value is
normalized to `None` first; non-required falsy fields are dropped. -/
def filter_testcase_fields (testcase_data : Option Record) : Option Record :=
  match testcase_data with
  | none => none
  | some d =>
    if d.isEmpty then none
    else
      some (POLARION_FIELDS.foldl (fun acc fd =>
        let pv := getVal d fd.1
        let pv := if REQUIRED_FIELDS.contains fd.1 && !pv.truthy then .vNone else pv
        if !(REQUIRED_FIELDS.contains fd.1) && !pv.truthy then acc
        else if pv != fd.2 then setVal acc fd.1 pv
        else acc) [])

/-- `TestsTransform.get_polarion_data`. -/
def get_polarion_data (testcase_name : Option String) (avail : Index)
    (cache : String → Option Record) : Except PyExc (Option Record) := do
  pure (filter_testcase_fields (← get_testcase_data testcase_name avail cache))

/-! ## `cli.TestsTransform`: metadata rendering -/

/-- `re.match(r'[0-9]+[.)]? ?', ·)`: length of the match (digits, an
optional `.`/`)`, an optional space), if any. -/
def matchNumberedLen (l : List Char) : Option Nat :=
  let ds := l.takeWhile Char.isDigit
  if ds.isEmpty then none
  else
    let rest := l.drop ds.length
    let n1 := match rest with
      | '.' :: _ => 1
      | ')' :: _ => 1
      | _ => 0
    let n2 := match rest.drop n1 with
      | ' ' :: _ => 1
      | _ => 0
    some (ds.length + n1 + n2)

/-- The loop body of `TestsTransform._format_steps`, with the running
1-based index. -/
def format_steps_go (idx : Nat) : List String → Except PyExc (List String)
  | [] => .ok []
  | step0 :: rest => do
    let step := if step0 == "" then "" else pyStrip (sanitize_string step0)
    let numbered := matchNumberedLen step.data
    let step_num :=
      if numbered.isSome then ""
      else if step != "" then toString idx ++ ". "
      else toString idx ++ "."
    let (stepOut, contLines) ←
      if step.length > 80 then
        match textwrapWrap step 60 with
        | [] => (.error .indexError : Except PyExc (String × List String))
        | first :: more => pure (first, more)
      else pure (step, [])
    let step_str := "    " ++ step_num ++ stepOut
    let wrap_indent_n := if step_num != "" then step_num.length else numbered.getD 0
    let wrap_indent := "    " ++ spaces wrap_indent_n
    let tail_lines ← format_steps_go (idx + 1) rest
    pure ((step_str :: contLines.map (fun v => wrap_indent ++ v)) ++ tail_lines)

/-- `TestsTransform._format_steps`. -/
def format_steps (steps : List String) : Except PyExc (List String) :=
  if steps.length == 1 && steps.headD "x" == "" then .ok []
  else format_steps_go 1 steps

/-- Coerce a truthy value to the list `_format_steps` iterates (iterating a
string yields its characters). -/
def iterVal : PyVal → List String
  | .vList l => l
  | .vStr s => s.data.map String.singleton
  | .vNone => []

/-- `TestsTransform._get_formatted_steps`. -/
def get_formatted_steps (polarion_data : Record) :
    Except PyExc (List String × List String) := do
  let steps ←
    if (getVal polarion_data "testSteps").truthy then do
      let ns ← format_steps (iterVal (getVal polarion_data "testSteps"))
      pure (if ns.isEmpty then ([] : List String) else "testSteps:" :: ns)
    else pure []
  let results ←
    if (getVal polarion_data "expectedResults").truthy then do
      let nr ← format_steps (iterVal (getVal polarion_data "expectedResults"))
      pure (if nr.isEmpty then ([] : List String) else "expectedResults:" :: nr)
    else pure []
  pure (steps, results)

/-- `', '.join(x)`: joining a list joins its elements, joining a string
joins its characters. -/
def pyJoinComma : PyVal → Except PyExc String
  | .vList l => .ok (String.intercalate ", " l)
  | .vStr s => .ok (String.intercalate ", " (s.data.map String.singleton))
  | .vNone => .error .typeError

/-- `TestsTransform._transform_polarion_data`: drops a generated-looking
title, joins linked work items, maps `casecomponent` through the fixed
table, sanitizes `setup`/`teardown` into paragraph lines. -/
def transform_polarion_data (d : Record) : Except PyExc Record := do
  let d ←
    match getValD d "title" (.vStr "") with
    | .vStr s =>
      pure (if containsSub s "test_" && s.length ≤ 85 then delVal d "title" else d)
    | .vNone => (.error .typeError : Except PyExc Record)
    | .vList l =>
      pure (if l.contains "test_" && l.length ≤ 85 then delVal d "title" else d)
  let d ←
    if (getVal d "linkedWorkItems").truthy then do
      let joined ← pyJoinComma (getVal d "linkedWorkItems")
      pure (setVal d "linkedWorkItems" (.vStr joined))
    else pure d
  let d ←
    match getVal d "casecomponent" with
    | .vStr s =>
      pure (match lookupStr CASECOMPONENT_MAP s with
        | some mapped => if s == "" then d else setVal d "casecomponent" (.vStr mapped)
        | none => d)
    | .vNone => pure d
    | .vList l =>
      if l.isEmpty then pure d else (.error .typeError : Except PyExc Record)
  let d ←
    match getVal d "setup" with
    | .vStr s =>
      pure (if s == "" then d else setVal d "setup" (sanitize_paragraph s))
    | .vNone => pure d
    | .vList l =>
      if l.isEmpty then pure d else (.error .typeError : Except PyExc Record)
  let d ←
    match getVal d "teardown" with
    | .vStr s =>
      pure (if s == "" then d else setVal d "teardown" (sanitize_paragraph s))
    | .vNone => pure d
    | .vList l =>
      if l.isEmpty then pure d else (.error .typeError : Except PyExc Record)
  pure d

/-- The omission set of `TestsTransform._wrap_values`. -/
def WRAP_OMMIT : List String :=
  ["casecomponent", "setup", "teardown", "description", "testSteps",
   "expectedResults", "linkedWorkItems"]

/-- `TestsTransform._wrap_values`: per-key (keys are independent, so
set-iteration order does not matter): sanitize non-vocabulary string
values, strip, wrap at 60 when longer than 80, else flatten embedded
newlines and collapse spaces. -/
def wrap_values (d : Record) : Record :=
  d.map (fun p =>
    if WRAP_OMMIT.contains p.1 then p
    else
      match p.2 with
      | .vNone => p
      | .vList l => (p.1, .vList l)
      | .vStr s0 =>
        if s0 == "" then p
        else
          let line := if VALID_VALUES.contains p.1 then s0 else sanitize_string s0
          let line := pyStrip line
          if line.length > 80 then (p.1, .vList (textwrapWrap line 60))
          else if line.data.contains '\n' then
            (p.1, .vStr ⟨collapseRuns ' ' (replaceAll line.data "\n".data " ".data)⟩)
          else (p.1, .vStr line))

/-- Python `repr` of a string list (unreachable in the modelled flows:
rendered first lines are always strings). -/
def pyFormatVal : PyVal → String
  | .vNone => "None"
  | .vStr s => s
  | .vList l =>
    "[" ++ String.intercalate ", " (l.map (fun x => "\x27" ++ x ++ "\x27")) ++ "]"

/-- `'{}'.format(first_line or None)`. -/
def pyFormatOrNone (v : PyVal) : String :=
  if v.truthy then pyFormatVal v else "None"

/-- Stable insertion of a string into a sorted list (ascending). -/
def insertSorted (x : String) : List String → List String
  | [] => [x]
  | y :: rest =>
    if decide (x ≤ y) then x :: y :: rest else y :: insertSorted x rest

/-- Python `sorted` on strings (insertion sort; the rendered keys are
pairwise distinct, so any comparison sort yields the same list). -/
def sortStrings : List String → List String
  | [] => []
  | x :: rest => insertSorted x (sortStrings rest)

/-- The omission set of `format_polarion_data`. -/
def FORMAT_OMMIT : List String :=
  ["caseautomation", "caselevel", "description", "testSteps",
   "expectedResults", "work_item_id"]

/-- `TestsTransform.format_polarion_data`. -/
def format_polarion_data (d : Record) : Except PyExc (List String) := do
  let ommit :=
    if !hasKey d "caseautomation" then FORMAT_OMMIT ++ MANUAL_ONLY_FIELDS
    else FORMAT_OMMIT
  let sr ← get_formatted_steps d
  let d ← transform_polarion_data d
  let d := wrap_values d
  let keys := sortStrings ((d.map Prod.fst).filter (fun k => !ommit.contains k))
  let data_list := keys.foldl (fun acc key =>
    let v0 := getVal d key
    let fr : PyVal × List String :=
      if v0.truthy then
        match v0 with
        | .vList [] => (.vNone, [])
        | .vList (x :: xs) => (.vStr x, xs)
        | v => (v, [])
      else (.vNone, [])
    let key_indent := spaces (key.length + 2)
    let acc :=
      if fr.1.truthy || REQUIRED_FIELDS.contains key then
        acc ++ [key ++ ": " ++ pyFormatOrNone fr.1]
      else acc
    acc ++ fr.2.map (fun v => key_indent ++ v)) []
  pure (data_list ++ sr.1 ++ sr.2)

/-- `TestsTransform.get_polarion_docstring`. -/
def get_polarion_docstring (polarion_data : Record) (indent : Nat) :
    Except PyExc String := do
  if polarion_data.isEmpty then pure ""
  else
    let ind := spaces indent
    let pol_indent := ind ++ spaces 4
    let lines ← format_polarion_data polarion_data
    pure (String.intercalate "\n"
      ((ind ++ "Polarion:") :: lines.map (fun l => pol_indent ++ l)))

/-- Truthiness of `tests_info.test_class` (`None` and `""` falsy). -/
def truthyOptStr : Option String → Bool
  | none => false
  | some s => !(s == "")

/-- `TestsTransform.append_to_docstring`. -/
def append_to_docstring (tests_info : TestState) (polarion_data : Record) :
    Except PyExc String := do
  if tests_info.docstring_data.isEmpty && polarion_data.isEmpty then pure ""
  else
    let indent := if truthyOptStr tests_info.test_class then 8 else 4
    let indent_str := spaces indent
    let new_docstring :=
      if !tests_info.docstring_data.isEmpty then String.join tests_info.docstring_data
      else indent_str ++ "\"\"\""
    let pol ← get_polarion_docstring polarion_data indent
    pure (new_docstring ++ "\n" ++ pol ++ "\n" ++ indent_str ++ "\"\"\"" ++ "\n")

/-! ## `cli.TestsTransform.process_testfile` -/

/-- The per-line loop of `process_testfile` (the source reads with
`readline`; here the remaining lines are an explicit list).  Returns
`(modified, newfile, manual_tests_seen)`. -/
def process_lines (avail : Index) (cache : String → Option Record) :
    List String → TierState → TestState → Bool → Option Record →
    Option String → List (Option String) → List String →
    Except PyExc (Bool × List String × List (Option String))
  | [], _, _, modified, _, _, seen, out => .ok (modified, out, seen)
  | line :: rest, tiers, tests, modified, pdata, lastTest, seen, out => do
    let tp := tierProcessLine tiers line
    let tiers := tp.1
    let sp := testProcessLine tests tp.2
    let tests := sp.1
    let ml : Option String := if tests.line_is_in_docstring then none else some sp.2
    let (lastTest, pdata, seen) ←
      if lastTest != tests.test_name then do
        let pd ← get_polarion_data tests.test_name avail cache
        let seen :=
          if truthyRec pd && hasKey (pd.getD []) "caseautomation" then
            seen ++ [tests.test_name]
          else seen
        pure (tests.test_name, pd, seen)
      else pure (lastTest, pdata, seen)
    let (ml, modified) ←
      if tiers.tier_missing && truthyRec pdata then do
        let ml ← append_tier (pdata.getD []) ml
        pure (ml, true)
      else pure (ml, modified)
    let (ml, modified) ←
      if tests.docstring_end then do
        let dd := if truthyRec pdata then pdata.getD [] else DEFAULT_DATA
        let app ← append_to_docstring tests dd
        pure (some (app ++ ml.getD ""), true)
      else pure (ml, modified)
    let out :=
      match ml with
      | some s => if s != "" then out ++ [s] else out
      | none => out
    process_lines avail cache rest tiers tests modified pdata lastTest seen out

/-- `TestsTransform.process_testfile`. -/
def process_testfile (lines : List String) (avail : Index)
    (cache : String → Option Record) :
    Except PyExc (Bool × List String × List (Option String)) :=
  process_lines avail cache lines {} {} false none none [] []

/-- Split a string into lines keeping the newlines, as iterated `readline`
calls would produce them. -/
def linesOfAux : List Char → List Char → List String
  | [], cur => if cur.isEmpty then [] else [⟨cur.reverse⟩]
  | c :: rest, cur =>
    if c == '\n' then String.mk (c :: cur).reverse :: linesOfAux rest []
    else linesOfAux rest (c :: cur)

/-- `readline`-style line splitting. -/
def linesOf (s : String) : List String :=
  linesOfAux s.data []

/-! ## `cli.py`: manual test stubs -/

/-- `cli.get_requirement_annotation`: consults `linkedWorkItems`
(`pop()` takes the last element of a list and a plain string has no
`pop`), deletes the field, and maps the popped id through the
requirements table. -/
def get_requirement_annot (polarion_data : Record)
    (req_db : List (String × String)) :
    Except PyExc (Option String × Record) :=
  let req := getVal polarion_data "linkedWorkItems"
  if !req.truthy then .ok (none, polarion_data)
  else
    let d := delVal polarion_data "linkedWorkItems"
    match req with
    | .vList l =>
      match l.getLast? with
      | none => .error .indexError
      | some last =>
        match lookupStr req_db last with
        | none => .ok (none, d)
        | some name => .ok (some ("@test_requirements." ++ name), d)
    | .vStr _ => .error .attributeError
    | .vNone => .error .typeError

/-- ASCII lower-casing (Python's `str.lower`; non-ASCII case mappings are
removed by the following character filter either way). -/
def pyLower (c : Char) : Char :=
  if 'A' ≤ c && c ≤ 'Z' then Char.ofNat (c.toNat + 32) else c

/-- A character the class `[a-z0-9_]` accepts. -/
def isNameChar (c : Char) : Bool :=
  ('a' ≤ c && c ≤ 'z') || c.isDigit || c == '_'

/-- Python `s.strip('_')`. -/
def stripUnderscores (l : List Char) : List Char :=
  ((l.dropWhile (· == '_')).reverse.dropWhile (· == '_')).reverse

/-- The function-name derivation of `cli.add_manual_test`: punctuation to
underscores, strip, strip underscores, lower-case, collapse underscore
runs, drop characters outside `[a-z0-9_]`, truncate to 85, and prepend
`test_` unless it already occurs as a substring. -/
def manualTestName (raw : String) : String :=
  let l := raw.data
  let l := l.map (fun c =>
    if c == ' ' || c == ':' || c == '/' || c == '-' || c == '(' || c == ')' ||
        c == '[' || c == ']' then '_'
    else c)
  let l := pyStripL l
  let l := stripUnderscores l
  let l := l.map pyLower
  let l := collapseRuns '_' l
  let l := l.filter isNameChar
  let l := l.take 85
  if infixOf "test_".data l then ⟨l⟩ else "test_" ++ String.mk l

/-- `cli.add_manual_test`: the generated decorator/definition/docstring
lines of one manual stub. -/
def add_manual_test (test_name : String) (polarion_data : Record)
    (req_db : List (String × String)) : Except PyExc (List String) := do
  let lines := ["@pytest.mark.manual"]
  let indent := spaces 4
  let raw ←
    (if (getVal polarion_data "title").truthy then
      match getVal polarion_data "title" with
      | .vStr s => .ok s
      | _ => (.error .attributeError : Except PyExc String)
    else .ok test_name)
  let new_test_name := manualTestName raw
  let ra ← get_requirement_annot polarion_data req_db
  let polarion_data := ra.2
  let lines := lines ++ (match ra.1 with
    | some a => [a]
    | none => [])
  let ta ← get_tier_annot polarion_data
  let lines := lines ++ (match ta with
    | some a => [a]
    | none => [])
  let lines := lines ++ ["def " ++ new_test_name ++ "():"]
  let description :=
    match getVal polarion_data "description" with
    | .vList l => l
    | .vStr s => s.data.map String.singleton
    | .vNone => []
  let new_description_list :=
    (description.filter (fun ln => !(ln == ""))).map (fun ln => indent ++ ln)
  let new_description :=
    if !new_description_list.isEmpty then
      String.intercalate "\n" (new_description_list ++ ["\n"])
    else ""
  let docstring ← get_polarion_docstring polarion_data 4
  pure (lines ++
    [indent ++ "\"\"\"" ++ "\n" ++ new_description ++ docstring ++ "\n" ++
      indent ++ "\"\"\"" ++ "\n\n"])

/-- `titleContrib m k`: the id lists of all raw-title entries of `m` whose
stripped title is `k`, concatenated in first-seen order (the order of the
claim "concatenated in first-seen order"). -/
def titleContrib (m : Index) (k : String) : List String :=
  ((m.filter (fun p => stripParams p.1 == k)).map Prod.snd).flatten

/-- Keys of an index. -/
def keysOf (m : Index) : List String := m.map Prod.fst

/-! # Theorems -/

/-! ## Bridge lemmas for `subParam` -/

/-- Skipping `n` characters and resuming equals resuming on the dropped
list: the recursion of `subParamAux` in its `skip` argument. -/
theorem subParamAux_skip (l : List Char) :
    ∀ n, subParamAux l n = subParam (l.drop n) := by
  induction l with
  | nil => intro n; cases n <;> rfl
  | cons c rest ih =>
    intro n
    cases n with
    | zero => rfl
    | succ m => simpa [subParamAux] using ih m

/-- Unfolding equation of `subParam` on a cons cell, phrased the way the
regex substitution is described. -/
theorem subParam_cons (c : Char) (rest : List Char) :
    subParam (c :: rest) =
      if c == '[' then
        match lastIdxOfR rest with
        | some k => subParam (rest.drop (k + 1))
        | none => c :: subParam rest
      else c :: subParam rest := by
  show subParamAux (c :: rest) 0 = _
  rw [subParamAux]
  split
  · rename_i h
    cases hL : lastIdxOfR rest with
    | some k => simp [h, hL, subParamAux_skip]
    | none => simp [h, hL]; rfl
  · rename_i h
    simp [h]
    rfl

/-- If the pattern `\[.*\]` has no closing bracket available in `l`'s first
newline-free stretch, the substitution's output keeps that property. -/
theorem lastIdxOfR_subParam_none :
    ∀ (n : Nat) (l : List Char), l.length ≤ n → lastIdxOfR l = none →
      lastIdxOfR (subParam l) = none := by
  intro n
  induction n with
  | zero =>
    intro l hl h
    have hnil : l = [] := by
      cases l with
      | nil => rfl
      | cons a b => simp at hl
    subst hnil
    simpa [subParam, subParamAux] using h
  | succ m ih =>
    intro l hl h
    cases l with
    | nil => simpa [subParam, subParamAux] using h
    | cons c rest =>
      rw [subParam_cons]
      rw [lastIdxOfR] at h
      by_cases hnl : c = '\n'
      · have hcb : (c == '[') = false := by simp [hnl]
        rw [if_neg (by simp [hcb])]
        rw [lastIdxOfR]
        simp [hnl]
      · rw [if_neg (by simpa using hnl)] at h
        cases hr : lastIdxOfR rest with
        | some k => rw [hr] at h; simp at h
        | none =>
          rw [hr] at h
          have hcr : ¬(c = ']') := by
            intro hc
            rw [if_pos (by simpa using hc)] at h
            simp at h
          have ihrest : lastIdxOfR (subParam rest) = none :=
            ih rest (by simp at hl; omega) hr
          by_cases hcb : c = '['
          · rw [if_pos (by simpa using hcb)]
            show lastIdxOfR (c :: subParam rest) = none
            rw [lastIdxOfR]
            rw [if_neg (by simpa using hnl), ihrest]
            simp [hcr]
          · rw [if_neg (by simpa using hcb)]
            rw [lastIdxOfR]
            rw [if_neg (by simpa using hnl), ihrest]
            simp [hcr]

/-- Length-bounded version of the idempotence of the parameter-stripping
substitution. -/
theorem subParam_idem_aux :
    ∀ (n : Nat) (l : List Char), l.length ≤ n →
      subParam (subParam l) = subParam l := by
  intro n
  induction n with
  | zero =>
    intro l hl
    have hnil : l = [] := by
      cases l with
      | nil => rfl
      | cons a b => simp at hl
    subst hnil; rfl
  | succ m ih =>
    intro l hl
    cases l with
    | nil => rfl
    | cons c rest =>
      rw [subParam_cons (c := c)]
      by_cases hcb : c = '['
      · rw [if_pos (by simpa using hcb)]
        cases hr : lastIdxOfR rest with
        | some k =>
          exact ih _ (by simp at hl; have := List.length_drop (k + 1) rest; omega)
        | none =>
          show subParam (c :: subParam rest) = c :: subParam rest
          rw [subParam_cons]
          rw [if_pos (by simpa using hcb)]
          rw [lastIdxOfR_subParam_none m rest (by simp at hl; omega) hr]
          simp at hl
          rw [ih rest (by omega)]
      · rw [if_neg (by simpa using hcb)]
        rw [subParam_cons]
        rw [if_neg (by simpa using hcb)]
        simp at hl
        rw [ih rest (by omega)]

/-- The parameter-stripping substitution is idempotent. -/
theorem subParam_idem (l : List Char) : subParam (subParam l) = subParam l :=
  subParam_idem_aux l.length l le_rfl

/-- `stripParams` is idempotent. -/
theorem stripParams_idem (s : String) :
    stripParams (stripParams s) = stripParams s := by
  simp [stripParams, subParam_idem]

/-- When the pattern has no match, the substitution is the identity. -/
theorem subParam_of_noParamMatch :
    ∀ l : List Char, noParamMatch l = true → subParam l = l := by
  intro l
  induction l with
  | nil => intro _; rfl
  | cons c rest ih =>
    intro h
    rw [noParamMatch] at h
    rw [Bool.and_eq_true] at h
    rw [subParam_cons]
    by_cases hcb : c = '['
    · rw [if_pos (by simpa using hcb)]
      have hnone : lastIdxOfR rest = none := by
        have := h.1
        rw [if_pos (by simpa using hcb)] at this
        simpa [Option.isNone_iff_eq_none] using this
      rw [hnone, ih h.2]
    · rw [if_neg (by simpa using hcb)]
      rw [ih h.2]

/-! ## Association-list lemmas for the index -/

/-- A key is absent exactly when no entry carries it. -/
theorem lookupIds_eq_none_iff (m : Index) (k : String) :
    lookupIds m k = none ↔ ∀ p ∈ m, p.1 ≠ k := by
  induction m with
  | nil => simp [lookupIds]
  | cons a rest ih =>
    rw [lookupIds]
    by_cases h : a.1 = k
    · simp [h]
    · simp [h, ih]

/-- Lookup distributes over append, first list first. -/
theorem lookupIds_append (m1 m2 : Index) (k : String) :
    lookupIds (m1 ++ m2) k =
      match lookupIds m1 k with
      | some v => some v
      | none => lookupIds m2 k := by
  induction m1 with
  | nil => simp [lookupIds]
  | cons a rest ih =>
    rw [List.cons_append, lookupIds, lookupIds]
    by_cases h : a.1 = k
    · simp [h]
    · simp [h, ih]

/-- Inserting an absent key appends the entry. -/
theorem insertExtend_append (m : Index) (k : String) (ids : List String)
    (h : lookupIds m k = none) : insertExtend m k ids = m ++ [(k, ids)] := by
  induction m with
  | nil => rfl
  | cons a rest ih =>
    rw [lookupIds] at h
    rw [insertExtend]
    by_cases hk : a.1 = k
    · simp [hk] at h
    · simp only [List.cons_append]
      rw [if_neg (by simpa using hk)]
      rw [ih (by simpa [hk] using h)]

/-- The keys after an insert: unchanged when present, appended when new. -/
theorem keysOf_insertExtend (m : Index) (k : String) (ids : List String) :
    keysOf (insertExtend m k ids) =
      if (lookupIds m k).isSome then keysOf m else keysOf m ++ [k] := by
  induction m with
  | nil => simp [keysOf, insertExtend, lookupIds]
  | cons a rest ih =>
    by_cases hk : a.1 = k
    · have hb : (a.1 == k) = true := by simpa using hk
      simp [insertExtend, lookupIds, hb, keysOf]
    · have hb : (a.1 == k) = false := by simpa using hk
      simp only [insertExtend, lookupIds, hb, Bool.false_eq_true, if_false,
        keysOf, List.map_cons] at ih ⊢
      rw [ih]
      by_cases hp : (lookupIds rest k).isSome
      · simp [hp]
      · simp [hp]

/-- Every entry of an insert carries an old key or the inserted key. -/
theorem mem_insertExtend (m : Index) (k : String) (ids : List String) :
    ∀ p ∈ insertExtend m k ids, p.1 ∈ keysOf m ∨ p.1 = k := by
  induction m with
  | nil => simp [insertExtend]
  | cons a rest ih =>
    intro p hp
    by_cases hk : a.1 = k
    · have hb : (a.1 == k) = true := by simpa using hk
      simp only [insertExtend, hb, if_true] at hp
      rcases List.mem_cons.mp hp with hp | hp
      · left; simp [keysOf, hp]
      · left
        simp only [keysOf, List.map_cons]
        exact List.mem_cons_of_mem _ (List.mem_map_of_mem _ hp)
    · have hb : (a.1 == k) = false := by simpa using hk
      simp only [insertExtend, hb, Bool.false_eq_true, if_false] at hp
      rcases List.mem_cons.mp hp with hp | hp
      · left; simp [keysOf, hp]
      · rcases ih p hp with h | h
        · left
          simp only [keysOf, List.map_cons]
          exact List.mem_cons_of_mem _ (by simpa [keysOf] using h)
        · right; exact h

/-- Lookup through an insert: the inserted key accumulates, others are
untouched. -/
theorem lookupIds_insertExtend (m : Index) (k : String) (ids : List String)
    (q : String) :
    lookupIds (insertExtend m k ids) q =
      if q = k then
        match lookupIds m k with
        | some l => some (l ++ ids)
        | none => some ids
      else lookupIds m q := by
  induction m with
  | nil =>
    by_cases hq : q = k
    · simp [insertExtend, lookupIds, hq]
    · have hkq : ¬(k = q) := fun h => hq h.symm
      simp [insertExtend, lookupIds, hq, hkq]
  | cons a rest ih =>
    by_cases hk : a.1 = k
    · have hb : (a.1 == k) = true := by simpa using hk
      by_cases hq : a.1 = q
      · have hbq : (a.1 == q) = true := by simpa using hq
        have hqk : q = k := hq ▸ hk
        simp [insertExtend, lookupIds, hb, hbq, hqk]
      · have hbq : (a.1 == q) = false := by simpa using hq
        have hqk : ¬(q = k) := fun hc => hq (hk.trans hc.symm)
        simp [insertExtend, lookupIds, hb, hbq, hqk]
    · have hb : (a.1 == k) = false := by simpa using hk
      by_cases hq : a.1 = q
      · have hbq : (a.1 == q) = true := by simpa using hq
        have hqk : ¬(q = k) := fun hc => hk (hq.trans hc)
        simp [insertExtend, lookupIds, hb, hbq, hqk]
      · have hbq : (a.1 == q) = false := by simpa using hq
        simp only [insertExtend, hb, Bool.false_eq_true, if_false, lookupIds,
          hbq]
        rw [ih]

/-- The lookup characterization of the whole `strip_parameters` fold,
generalized over the accumulator. -/
theorem strip_foldl_lookup :
    ∀ (m : Index) (acc : Index) (q : String),
      lookupIds (m.foldl (fun acc p => insertExtend acc (stripParams p.1) p.2) acc) q =
        match lookupIds acc q with
        | some l => some (l ++ titleContrib m q)
        | none =>
          if m.all (fun p => !(stripParams p.1 == q)) then none
          else some (titleContrib m q) := by
  intro m
  induction m with
  | nil =>
    intro acc q
    simp only [List.foldl_nil, titleContrib, List.filter_nil, List.map_nil,
      List.flatten_nil, List.all_nil, if_true]
    cases lookupIds acc q <;> simp
  | cons a rest ih =>
    intro acc q
    rw [List.foldl_cons, ih, lookupIds_insertExtend]
    by_cases hq : q = stripParams a.1
    · have hfa : (stripParams a.1 == q) = true := by simp [hq]
      have hc : titleContrib (a :: rest) q = a.2 ++ titleContrib rest q := by
        simp [titleContrib, List.filter_cons, hfa]
      rw [if_pos hq, ← hq, hc]
      cases hacc : lookupIds acc q with
      | some l => simp [List.append_assoc]
      | none =>
        have hall : ((a :: rest).all fun p => !(stripParams p.1 == q)) = false := by
          simp only [List.all_cons, hfa, Bool.not_true, Bool.false_and]
        rw [hall]
        simp
    · have hfa : (stripParams a.1 == q) = false := by
        simp only [beq_eq_false_iff_ne, ne_eq]
        exact fun hcc => hq hcc.symm
      have hc : titleContrib (a :: rest) q = titleContrib rest q := by
        simp [titleContrib, List.filter_cons, hfa]
      have hall : ((a :: rest).all fun p => !(stripParams p.1 == q)) =
          (rest.all fun p => !(stripParams p.1 == q)) := by
        simp only [List.all_cons, hfa, Bool.not_false, Bool.true_and]
      rw [if_neg hq, hc, hall]

/-- Fold invariant: the accumulator keeps stripped-fixed keys and
duplicate-free keys. -/
theorem strip_fold_invariant :
    ∀ (m : Index) (acc : Index),
      (∀ p ∈ acc, stripParams p.1 = p.1) → (keysOf acc).Nodup →
      (∀ p ∈ m.foldl (fun acc p => insertExtend acc (stripParams p.1) p.2) acc,
          stripParams p.1 = p.1) ∧
        (keysOf (m.foldl (fun acc p => insertExtend acc (stripParams p.1) p.2) acc)).Nodup := by
  intro m
  induction m with
  | nil => intro acc h1 h2; exact ⟨h1, h2⟩
  | cons a rest ih =>
    intro acc h1 h2
    rw [List.foldl_cons]
    apply ih
    · intro p hp
      rcases mem_insertExtend acc (stripParams a.1) a.2 p hp with h | h
      · rcases List.mem_map.mp h with ⟨p', hp', hpk⟩
        rw [← hpk]
        exact h1 p' hp'
      · rw [h]
        exact stripParams_idem a.1
    · rw [keysOf_insertExtend]
      by_cases hpres : (lookupIds acc (stripParams a.1)).isSome
      · simpa [hpres] using h2
      · rw [if_neg hpres]
        have habs : stripParams a.1 ∉ keysOf acc := by
          have := (lookupIds_eq_none_iff acc (stripParams a.1)).mp
            (Option.not_isSome_iff_eq_none.mp hpres)
          intro hmem
          rcases List.mem_map.mp hmem with ⟨p', hp', hpk⟩
          exact this p' hp' hpk
        simp [List.nodup_append, h2, habs]

/-- Folding entries whose keys are already fixed and pairwise distinct,
into an accumulator that contains none of them, just appends them. -/
theorem foldl_of_fixed :
    ∀ (m : Index) (acc : Index),
      (∀ p ∈ m, stripParams p.1 = p.1) →
      (keysOf m).Nodup →
      (∀ p ∈ m, lookupIds acc p.1 = none) →
      m.foldl (fun acc p => insertExtend acc (stripParams p.1) p.2) acc = acc ++ m := by
  intro m
  induction m with
  | nil => intro acc _ _ _; simp
  | cons a rest ih =>
    intro acc h1 h2 h3
    have hnodup : a.1 ∉ keysOf rest ∧ (keysOf rest).Nodup := by
      have hcons : (a.1 :: keysOf rest).Nodup := h2
      exact List.nodup_cons.mp hcons
    rw [List.foldl_cons]
    rw [h1 a (by simp)]
    rw [insertExtend_append acc a.1 a.2 (h3 a (by simp))]
    have hres := ih (acc ++ [(a.1, a.2)])
      (fun p hp => h1 p (List.mem_cons_of_mem _ hp))
      hnodup.2
      (fun p hp => by
        rw [lookupIds_append]
        rw [h3 p (List.mem_cons_of_mem _ hp)]
        have hmem : a.1 ∈ keysOf rest → False := fun hm => hnodup.1 hm
        have hne : (a.1 == p.1) = false := by
          simp only [beq_eq_false_iff_ne, ne_eq]
          intro hc
          apply hmem
          rw [hc]
          exact List.mem_map_of_mem _ hp
        simp [lookupIds, hne])
    rw [hres, List.append_assoc]
    rfl

/-! ## Claim C2 (`get_path`) -/

/-- C2 counterexample: the claim says `get_path 999 = ""` ("fewer than 3
digits, e.g. 999"), but 999 has exactly three digits and gets one sharding
level. -/
theorem claim2_counterexample : get_path 999 ≠ "" := by decide

/-- C2 (amended): `get_path 31942 = "30000-39999/31000-31999/31900-31999"`;
ids with fewer than 3 digits (e.g. 99) yield the empty path; 999 is not
such an id — it has exactly 3 digits and yields `"900-999"`. -/
theorem claim2_amended :
    get_path 31942 = "30000-39999/31000-31999/31900-31999" ∧
    get_path 999 = "900-999" ∧
    ∀ n, n < 100 → get_path n = "" :=
  ⟨by decide, by decide, by decide⟩

/-- C2 witness: the amended theorem applied at the concrete input 99. -/
theorem claim2_amended_witness : 99 < 100 ∧ get_path 99 = "" :=
  ⟨by decide, claim2_amended.2.2 99 (by decide)⟩

/-! ## Claim C7 (`strip_parameters` strips one title) -/

/-- Helper: a `']'` appended after a newline-free list is its last closing
bracket. -/
theorem lastIdxOfR_append_close :
    ∀ (params : List Char), '\n' ∉ params →
      lastIdxOfR (params ++ [']']) = some params.length := by
  intro params
  induction params with
  | nil => intro _; rfl
  | cons c rest ih =>
    intro h
    have hc : (c == '\n') = false := by
      simp only [beq_eq_false_iff_ne, ne_eq]
      intro hcc
      exact h (by rw [hcc]; exact List.mem_cons_self _ _)
    rw [List.cons_append, lastIdxOfR]
    rw [ih (fun hm => h (List.mem_cons_of_mem _ hm))]
    simp [hc]

/-- Helper: `\[.*\]` removes a bracketed suffix after a bracket-free
name. -/
theorem subParam_strip_suffix :
    ∀ (name params : List Char), '[' ∉ name → '\n' ∉ params →
      subParam (name ++ '[' :: (params ++ [']'])) = name := by
  intro name
  induction name with
  | nil =>
    intro params _ h2
    rw [List.nil_append, subParam_cons]
    rw [if_pos (by simp)]
    rw [lastIdxOfR_append_close params h2]
    show subParam ((params ++ [']']).drop (params.length + 1)) = []
    have hdrop : (params ++ [']']).drop (params.length + 1) = [] := by
      apply List.drop_eq_nil_of_le
      simp
    rw [hdrop]
    rfl
  | cons c rest ih =>
    intro params h1 h2
    rw [List.cons_append, subParam_cons]
    have hcb : (c == '[') = false := by
      simp only [beq_eq_false_iff_ne, ne_eq]
      intro hcc
      exact h1 (by rw [hcc]; exact List.mem_cons_self _ _)
    rw [if_neg (by simp [hcb])]
    rw [ih params (fun hm => h1 (List.mem_cons_of_mem _ hm)) h2]

/-- C7 counterexample: the claim says a title whose bracketed text is not a
trailing suffix is left unchanged, but `TEST_PARAM.sub` removes the
bracketed span wherever it sits: `"Foo[x]bar"` becomes `"Foobar"`. -/
theorem claim7_counterexample :
    stripParams "Foo[x]bar" = "Foobar" ∧ stripParams "Foo[x]bar" ≠ "Foo[x]bar" := by
  exact ⟨by decide, by decide⟩

/-- C7 (amended): normalization removes the span from a `'['` through the
last following `']'` in the same newline-free stretch, wherever it occurs
(`"Name[params]"` with a bracket-free name does map to `"Name"`); a title
in which no `'['` is followed by a `']'` on the same line is left
unchanged. -/
theorem claim7_amended :
    (∀ name params : String, '[' ∉ name.data → '\n' ∉ params.data →
      stripParams (name ++ "[" ++ params ++ "]") = name) ∧
    (∀ t : String, noParamMatch t.data = true → stripParams t = t) := by
  constructor
  · intro name params h1 h2
    show String.mk (subParam (name ++ "[" ++ params ++ "]").data) = name
    have hdata : (name ++ "[" ++ params ++ "]").data =
        name.data ++ '[' :: (params.data ++ [']']) := by
      rw [String.data_append, String.data_append, String.data_append]
      simp
    rw [hdata, subParam_strip_suffix name.data params.data h1 h2]
  · intro t h
    show String.mk (subParam t.data) = t
    rw [subParam_of_noParamMatch t.data h]

/-- C7 witness: the amended theorem applied to title `"Login[admin]"`. -/
theorem claim7_amended_witness :
    '[' ∉ "Login".data ∧ '\n' ∉ "admin".data ∧
      stripParams ("Login" ++ "[" ++ "admin" ++ "]") = "Login" :=
  ⟨by decide, by decide, claim7_amended.1 "Login" "admin" (by decide) (by decide)⟩

/-! ## Claim C6 (`strip_parameters` as a whole) -/

/-- C6: `strip_parameters` is idempotent as a transformation of the index,
and the resulting mapping sends every normalized key to the concatenation,
in first-seen order, of the id lists of all raw titles normalizing to it
(`titleContrib`); keys no raw title normalizes to are absent. -/
theorem claim6_strip_parameters :
    (∀ m : Index, strip_parameters (strip_parameters m) = strip_parameters m) ∧
    (∀ (m : Index) (q : String),
      lookupIds (strip_parameters m) q =
        if m.all (fun p => !(stripParams p.1 == q)) then none
        else some (titleContrib m q)) := by
  constructor
  · intro m
    have hinv := strip_fold_invariant m [] (by simp) (by simp [keysOf])
    have h := foldl_of_fixed (strip_parameters m) [] hinv.1 hinv.2
      (fun p _ => rfl)
    calc strip_parameters (strip_parameters m)
        = [] ++ strip_parameters m := h
      _ = strip_parameters m := by simp
  · intro m q
    have h := strip_foldl_lookup m [] q
    simpa [lookupIds] using h

/-! ## Claim C5 (`get_by_name`) -/

/-- The scan loop returns the record of the first id whose cached record
passes `_check_automation`, provided every id resolves to a record. -/
theorem get_by_name_scan_eq (cache : String → Option Record) (b : Bool) :
    ∀ ids : List String, (∀ id ∈ ids, (cache id).isSome) →
      get_by_name_scan cache b ids =
        .ok (match ids.find? (fun i =>
            match cache i with
            | some case => check_automation case b
            | none => false) with
          | some i => cache i
          | none => none) := by
  intro ids
  induction ids with
  | nil => intro _; rfl
  | cons id rest ih =>
    intro hval
    obtain ⟨r, hr⟩ := Option.isSome_iff_exists.mp (hval id (by simp))
    by_cases hc : check_automation r b
    · rw [List.find?_cons_of_pos _ (by simp [hr, hc])]
      simp [get_by_name_scan, hr, hc]
    · rw [List.find?_cons_of_neg _ (by simp [hr, hc])]
      rw [← ih (fun i hi => hval i (by simp [hi]))]
      simp [get_by_name_scan, hr, hc]

/-- C5: for a title in the index with a non-empty, valid id list:
`automated = None` returns the first id's cached record unconditionally;
`automated = b` returns the record of the first id in order whose
`caseautomation` matches (`find?`), or `None` when none matches; a title
absent from the index raises `KeyError` instead of returning a value. -/
theorem claim5_get_by_name (avail : Index) (cache : String → Option Record)
    (name : String) :
    (lookupIds avail name = none →
      ∀ a, get_by_name avail cache (some name) a = .error .keyError) ∧
    (∀ id ids, lookupIds avail name = some (id :: ids) →
      get_by_name avail cache (some name) none = .ok (cache id)) ∧
    (∀ ids b, lookupIds avail name = some ids →
      (∀ i ∈ ids, (cache i).isSome) →
      get_by_name avail cache (some name) (some b) =
        .ok (match ids.find? (fun i =>
            match cache i with
            | some case => check_automation case b
            | none => false) with
          | some i => cache i
          | none => none)) := by
  refine ⟨?_, ?_, ?_⟩
  · intro h a
    simp [get_by_name, h]
  · intro id ids h
    simp [get_by_name, h]
  · intro ids b h hval
    simp only [get_by_name, h]
    exact get_by_name_scan_eq cache b ids hval

/-- C5 witness: the theorem applied to a concrete index and cache (the
first automated variant, the second id, is selected). -/
theorem claim5_witness :
    get_by_name [("T", ["a", "b"])]
      (fun i => if i == "a" then some [("caseautomation", .vStr "no")]
        else some [("caseautomation", .vStr "automated")])
      (some "T") (some true) =
      .ok (some [("caseautomation", .vStr "automated")]) := by
  have h := (claim5_get_by_name [("T", ["a", "b"])]
    (fun i => if i == "a" then some [("caseautomation", .vStr "no")]
      else some [("caseautomation", .vStr "automated")]) "T").2.2
    ["a", "b"] true (by decide) (by decide)
  rw [h]
  rfl

/-! ## Claim C3 (`__getitem__` caching of invalid records) -/

/-- C3: evaluation of the cache at the spec's failure modes.  A malformed
id ("badid", no separator) and a wrong-type record ("PRJ-1") both return
`None` on the first access and cache the `InvalidObject` sentinel; the
second access returns the cached sentinel object itself — a truthy value,
not `None` — because the `in self._cache` membership test precedes the
`isinstance(..., InvalidObject)` branch whose `return None` is therefore
dead code.  The load is never retried (the cache is unchanged). -/
theorem claim3_code_eval :
    (getItem (fun _ => none) [] "badid" =
      .ok (.pyNone, [("badid", .invalid)])) ∧
    (getItem (fun _ => none) [("badid", .invalid)] "badid" =
      .ok (.invalidObj, [("badid", .invalid)])) ∧
    (getItem (fun _ => some [("type", .scalar (some "requirement"))]) []
        "PRJ-1" = .ok (.pyNone, [("PRJ-1", .invalid)])) ∧
    (getItem (fun _ => some [("type", .scalar (some "requirement"))])
        [("PRJ-1", .invalid)] "PRJ-1" =
      .ok (.invalidObj, [("PRJ-1", .invalid)])) ∧
    GetItemRet.invalidObj ≠ GetItemRet.pyNone := by
  exact ⟨by rfl, by rfl, by rfl, by rfl, by decide⟩

/-! ## Claim C4 (`AWAITING_DOC` behaviour) -/

/-- A substring match puts every needle character into the haystack. -/
theorem infixOf_mem :
    ∀ (l needle : List Char), infixOf needle l = true → ∀ x ∈ needle, x ∈ l := by
  intro l
  induction l with
  | nil =>
    intro needle h x hx
    rw [infixOf] at h
    rw [List.isEmpty_iff] at h
    subst h
    simp at hx
  | cons c rest ih =>
    intro needle h x hx
    rw [infixOf, Bool.or_eq_true] at h
    rcases h with h | h
    · have hpre : needle <+: c :: rest := by
        exact List.isPrefixOf_iff_prefix.mp h
      exact hpre.sublist.subset hx
    · exact List.mem_cons_of_mem _ (ih needle h x hx)

/-- A line of pure whitespace contains no `"class Test"` or `"def test_"`
substring (both needles hold the non-whitespace character `s`). -/
theorem containsSub_of_blank (line : String) (h : pyStrip line = "")
    (needle : String) (hx : 's' ∈ needle.data) :
    containsSub line needle = false := by
  have hall : ∀ c ∈ line.data, isPyWs c = true := by
    have h0 : pyStripL line.data = [] := congrArg String.data h
    intro c hc
    unfold pyStripL at h0
    rw [List.reverse_eq_nil_iff, List.dropWhile_eq_nil_iff] at h0
    by_cases htake : c ∈ line.data.takeWhile isPyWs
    · exact List.mem_takeWhile_imp htake
    · have hdrop : c ∈ line.data.dropWhile isPyWs := by
        have := List.takeWhile_append_dropWhile (p := isPyWs) (l := line.data)
        rw [← this] at hc
        rcases List.mem_append.mp hc with hm | hm
        · exact absurd hm htake
        · exact hm
      exact h0 c (by simpa using hdrop)
  by_contra hcon
  rw [Bool.not_eq_false] at hcon
  have hsmem : 's' ∈ line.data := infixOf_mem line.data needle.data hcon 's' hx
  have := hall 's' hsmem
  simp [isPyWs] at this

/-- C4 counterexample: in `AWAITING_DOC` (after `def test_foo():`), the
next line is non-blank and does not start a documentation block, yet
`docstring_end` stays `false`, because the line contains the substring
`"class Test"` and is diverted into `_handle_class`. -/
theorem claim4_counterexample :
    ((testProcessLine {} "def test_foo():\n").1._docstring_next = true ∧
      (testProcessLine {} "def test_foo():\n").1._test_def_now = false) ∧
    pyStrip "    x = 1  # see class Test usage\n" ≠ "" ∧
    docstringStart "    x = 1  # see class Test usage\n".data = false ∧
    (testProcessLine (testProcessLine {} "def test_foo():\n").1
        "    x = 1  # see class Test usage\n").1.docstring_end = false := by
  exact ⟨⟨by decide, by decide⟩, by decide, by decide, by decide⟩

/-- C4 (amended): in the `AWAITING_DOC` state (`_docstring_next` set, no
signature pending), a blank line leaves the state unchanged, and the first
non-blank line that does not start a documentation block — and does not
contain the substrings `"class Test"` or `"def test_"`, which divert into
the class/def handlers — signals `docstring_end` on that same line. -/
theorem claim4_amended (s : TestState) (line : String)
    (hnext : s._docstring_next = true) (hdef : s._test_def_now = false) :
    (pyStrip line = "" →
      (testProcessLine s line).1._docstring_next = true ∧
      (testProcessLine s line).1._test_def_now = false ∧
      (testProcessLine s line).1.docstring_end = false ∧
      (testProcessLine s line).1.docstring_begin = false ∧
      (testProcessLine s line).1.line_is_in_docstring = false) ∧
    (pyStrip line ≠ "" → docstringStart line.data = false →
      containsSub line "class Test" = false →
      containsSub line "def test_" = false →
      (testProcessLine s line).1.docstring_end = true) := by
  constructor
  · intro hblank
    have hcl : containsSub line "class Test" = false :=
      containsSub_of_blank line hblank _ (by decide)
    have hdf : containsSub line "def test_" = false :=
      containsSub_of_blank line hblank _ (by decide)
    have hstrip : (pyStrip line == "") = true := by simp [hblank]
    simp [testProcessLine, hcl, hdf, hdef, hnext, hstrip]
  · intro hblank hds hcl hdf
    have hstrip : (pyStrip line == "") = false := by simpa using hblank
    simp [testProcessLine, hcl, hdf, hdef, hnext, hstrip, hds]

/-- C4 witness: the amended theorem applied at a concrete `AWAITING_DOC`
state and concrete blank/non-doc lines. -/
theorem claim4_amended_witness :
    ((testProcessLine { _docstring_next := true } "  \n").1._docstring_next = true) ∧
    ((testProcessLine { _docstring_next := true } "    return 1\n").1.docstring_end = true) :=
  ⟨((claim4_amended { _docstring_next := true } "  \n" (by decide) (by decide)).1
      (by decide)).1,
    (claim4_amended { _docstring_next := true } "    return 1\n" (by decide)
      (by decide)).2 (by decide) (by decide) (by decide) (by decide)⟩

/-! ## Claim C10 (scanners never change the line) -/

/-- C10: both `CurrentTier.process_line` and `CurrentTest.process_line`
return the input line unchanged in every state; the scanners communicate
only through their state fields. -/
theorem claim10_frame :
    (∀ (s : TierState) (line : String), (tierProcessLine s line).2 = line) ∧
    (∀ (s : TestState) (line : String), (testProcessLine s line).2 = line) := by
  constructor
  · intro s line
    simp only [tierProcessLine]
    repeat' split
    all_goals rfl
  · intro s line
    simp only [testProcessLine]
    repeat' split
    all_goals rfl

/-! ## Claim C9 (requirement-mapping decorator) -/

/-- C9 counterexample: the field is the non-empty list `["RQ1", "RQ2"]` and
its FIRST item maps to a known requirement, yet no decorator is emitted —
`req.pop()` consults the last item, `"RQ2"`, which is unknown. -/
theorem claim9_counterexample :
    get_requirement_annot [("linkedWorkItems", .vList ["RQ1", "RQ2"])]
        [("RQ1", "login")] = .ok (none, []) ∧
    lookupStr [("RQ1", "login")] "RQ1" = some "login" := by
  exact ⟨by rfl, by rfl⟩

/-- C9 (amended): the decorator is emitted iff `linkedWorkItems` is a
non-empty list whose LAST element maps to a known requirement name; only
the last element is consulted, the other elements are silently dropped, and
the field itself is removed from the metadata whenever it is truthy. -/
theorem claim9_amended (req_db : List (String × String)) (l : List String) :
    get_requirement_annot [("linkedWorkItems", .vList l)] req_db =
      if l.isEmpty then .ok (none, [("linkedWorkItems", .vList l)])
      else
        .ok ((match l.getLast? with
          | some last =>
            (lookupStr req_db last).map (fun n => "@test_requirements." ++ n)
          | none => none), []) := by
  cases l with
  | nil => rfl
  | cons x xs =>
    obtain ⟨y, hy⟩ := Option.isSome_iff_exists.mp
      (List.getLast?_isSome.mpr (by simp : (x :: xs) ≠ []))
    cases hlk : lookupStr req_db y <;>
      simp [get_requirement_annot, getVal, lookupVal, delVal, PyVal.truthy,
        hy, hlk]

/-! ## Claim C8 (manual stub function names) -/

/-- A prefix is in particular a substring. -/
theorem infixOf_of_prefix (needle l : List Char)
    (h : needle.isPrefixOf l = true) : infixOf needle l = true := by
  cases l with
  | nil =>
    rw [infixOf]
    cases needle with
    | nil => rfl
    | cons a b => simp [List.isPrefixOf] at h
  | cons c rest =>
    rw [infixOf, h]
    rfl

/-- Properties of the filtered, truncated name stem. -/
theorem manual_tail_props (base : List Char) :
    ((base.filter isNameChar).take 85).all isNameChar = true ∧
      ((base.filter isNameChar).take 85).length ≤ 85 := by
  constructor
  · rw [List.all_eq_true]
    intro x hx
    exact (List.mem_filter.mp (List.take_subset _ _ hx)).2
  · exact List.length_take_le _ _

/-- Properties of the final `test_`-ensuring stage, for any stem whose
characters pass the name filter and whose length is at most 85. -/
theorem manual_if_props (l : List Char) (hall : l.all isNameChar = true)
    (hlen : l.length ≤ 85) :
    ((if infixOf "test_".data l then (⟨l⟩ : String)
      else "test_" ++ String.mk l) : String).data.all isNameChar = true ∧
    containsSub (if infixOf "test_".data l then (⟨l⟩ : String)
      else "test_" ++ String.mk l) "test_" = true ∧
    (if infixOf "test_".data l then (⟨l⟩ : String)
      else "test_" ++ String.mk l).length ≤ 90 := by
  by_cases h : infixOf "test_".data l = true
  · rw [if_pos h]
    refine ⟨hall, h, ?_⟩
    show l.length ≤ 90
    omega
  · rw [if_neg h]
    have hdata : ("test_" ++ String.mk l).data = "test_".data ++ l := by
      rw [String.data_append]
    refine ⟨?_, ?_, ?_⟩
    · rw [hdata, List.all_append]
      rw [hall]
      rfl
    · show infixOf "test_".data ("test_" ++ String.mk l).data = true
      rw [hdata]
      exact infixOf_of_prefix _ _
        (List.isPrefixOf_iff_prefix.mpr (List.prefix_append _ _))
    · show ("test_" ++ String.mk l).data.length ≤ 90
      rw [hdata, List.length_append]
      show 5 + l.length ≤ 90
      omega

/-- C8 counterexample: the `test_` check is a substring test, not a prefix
test, so title `"my_test_here"` keeps its name, which does not match
`^test_[a-z0-9_]+$`; and the prefix is added after the 85-truncation, so a
90-character title produces a 90-character name, exceeding 85. -/
theorem claim8_counterexample :
    manualTestName "my_test_here" = "my_test_here" ∧
    "test_".data.isPrefixOf (manualTestName "my_test_here").data = false ∧
    (manualTestName (String.mk (List.replicate 90 'a'))).length = 90 := by
  exact ⟨by rfl, by rfl, by rfl⟩

/-- C8 (amended): the generated name is deterministic in the title, all of
its characters are in `[a-z0-9_]`, it contains `"test_"` as a substring
(not necessarily as a prefix), and its length is at most 90 (85 plus the
possibly-prepended prefix); the example `"Verify Login (SSO)"` maps to
`test_verify_login_sso`. -/
theorem claim8_amended :
    (∀ title : String,
      (manualTestName title).data.all isNameChar = true ∧
      containsSub (manualTestName title) "test_" = true ∧
      (manualTestName title).length ≤ 90) ∧
    manualTestName "Verify Login (SSO)" = "test_verify_login_sso" := by
  constructor
  · intro title
    rw [manualTestName]
    exact manual_if_props _ (manual_tail_props _).1 (manual_tail_props _).2
  · rfl

/-! ## Claim C1 (idempotence of the rewrite pass) -/

/-- C1 counterexample: a one-test file annotated by a first run of
`process_testfile` (first conjunct) is fed through a second run with the
same (empty) metadata repository: the second run reports
`modified = true` and emits different bytes — a second `Polarion:` block —
so the pass is not idempotent.  (`linesOf` reproduces the `readline`
iteration over the first run's output.) -/
theorem claim1_counterexample :
    (process_testfile ["def test_foo():\n", "    \"\"\"Docstring.\"\"\"\n"] []
        (fun _ => none) =
      .ok (true, ["def test_foo():\n",
        "    \"\"\"Docstring.\n\n    Polarion:\n        assignee: None\n    \"\"\"\n"],
        [])) ∧
    (linesOf (String.join ["def test_foo():\n",
        "    \"\"\"Docstring.\n\n    Polarion:\n        assignee: None\n    \"\"\"\n"]) =
      ["def test_foo():\n", "    \"\"\"Docstring.\n", "\n", "    Polarion:\n",
        "        assignee: None\n", "    \"\"\"\n"]) ∧
    (process_testfile
        ["def test_foo():\n", "    \"\"\"Docstring.\n", "\n", "    Polarion:\n",
          "        assignee: None\n", "    \"\"\"\n"] [] (fun _ => none) =
      .ok (true, ["def test_foo():\n",
        "    \"\"\"Docstring.\n\n    Polarion:\n        assignee: None\n\n    Polarion:\n        assignee: None\n    \"\"\"\n"],
        [])) ∧
    String.join ["def test_foo():\n",
        "    \"\"\"Docstring.\n\n    Polarion:\n        assignee: None\n\n    Polarion:\n        assignee: None\n    \"\"\"\n"] ≠
      String.join ["def test_foo():\n",
        "    \"\"\"Docstring.\n\n    Polarion:\n        assignee: None\n    \"\"\"\n"] := by
  exact ⟨by rfl, by rfl, by rfl, by decide⟩

/-- C1 (amended): rerunning `process_testfile` on an already-annotated
file with unchanged metadata reports `modified = true` again (the
`docstring_end` branch sets it unconditionally) and appends one more
metadata block into the docstring, so the output is not byte-identical to
the input: the pass is not idempotent. -/
theorem claim1_amended :
    (process_testfile
        ["def test_foo():\n", "    \"\"\"Docstring.\n", "\n", "    Polarion:\n",
          "        assignee: None\n", "    \"\"\"\n"] [] (fun _ => none) =
      .ok (true, ["def test_foo():\n",
        "    \"\"\"Docstring.\n\n    Polarion:\n        assignee: None\n\n    Polarion:\n        assignee: None\n    \"\"\"\n"],
        [])) ∧
    String.join ["def test_foo():\n",
        "    \"\"\"Docstring.\n\n    Polarion:\n        assignee: None\n\n    Polarion:\n        assignee: None\n    \"\"\"\n"] ≠
      String.join ["def test_foo():\n", "    \"\"\"Docstring.\n", "\n",
        "    Polarion:\n", "        assignee: None\n", "    \"\"\"\n"] := by
  exact ⟨by rfl, by decide⟩

end UpdateDocstring
